import Mathlib

/-!
Verification of the mxs-serial-link repository.

Shallow embedding of:
  * src/mxs_shared.rs   — wire constants and the packet-type enum,
  * src/mxs_decoder.rs  — the zero-copy stream decoder (`MxsDecoder::filter_buffer`
    and `MxsDecoder::extract_packet`),
  * src/mxs_encoder.rs  — the frame builder (`MxsEncoder::create_data_package`),
  * src/data.rs         — the fixed 6-byte data-record codec (`Data::try_from`),
  * src/stdio_helper.rs — the per-key transition of the line editor inside
    `read_stdin_input`,
  * src/main.rs         — `auto_select_port` and `generate_key_from_suffix`.

Bytes are modelled as `Nat` (the Rust code only compares bytes against
constants and widens the length byte to `usize`, so no 8-bit wrap-around
arithmetic occurs in the decoder).  Borrowed slices `&data[a..b]` are modelled
as the pair of indices `(a, b - a)` into the input list, with an explicit
extraction function for the bytes they denote.
-/

namespace MxsLink

-- ——————————————————————————————————————————————————————————————————————————
-- src/mxs_shared.rs
-- ——————————————————————————————————————————————————————————————————————————

/-- Rust: `pub const MARKER: &[u8] = &[0xAA, 0x55];` -/
def MARKER : List Nat := [0xAA, 0x55]

/-- Rust: `pub const MARKER_LEN: usize = MARKER.len();` -/
def MARKER_LEN : Nat := MARKER.length

/-- Rust: `pub const TYPE_LEN: usize = 1;` -/
def TYPE_LEN : Nat := 1

/-- Rust: `pub const SIZE_LEN: usize = 1;` -/
def SIZE_LEN : Nat := 1

/-- Rust: `pub const MAX_DATA_LEN: usize = (1usize << (SIZE_LEN * 8)) - 1;` -/
def MAX_DATA_LEN : Nat := (1 <<< (SIZE_LEN * 8)) - 1

/-- Rust: `pub const MIN_PACKET_SIZE: usize = MARKER_LEN + TYPE_LEN + SIZE_LEN;` -/
def MIN_PACKET_SIZE : Nat := MARKER_LEN + TYPE_LEN + SIZE_LEN

/-- Rust: `pub enum MxsPacketType { Start = 1, End = 2, Heartbeat = 3, Data = 4, Error = 5 }` -/
inductive MxsPacketType where
  | Start
  | End
  | Heartbeat
  | Data
  | Error
deriving DecidableEq, Repr

/-- The discriminant of each variant (`Self::X as u8`). -/
def MxsPacketType.toByte : MxsPacketType → Nat
  | .Start => 1
  | .End => 2
  | .Heartbeat => 3
  | .Data => 4
  | .Error => 5

/-- Rust: `impl TryFrom<u8> for MxsPacketType` — the guard chain
`v if v == Self::Start as u8 => Ok(Self::Start)`, …, `_ => Err(())`. -/
def MxsPacketType.tryFrom (v : Nat) : Option MxsPacketType :=
  if v = MxsPacketType.Start.toByte then some .Start
  else if v = MxsPacketType.End.toByte then some .End
  else if v = MxsPacketType.Heartbeat.toByte then some .Heartbeat
  else if v = MxsPacketType.Data.toByte then some .Data
  else if v = MxsPacketType.Error.toByte then some .Error
  else none

-- ——————————————————————————————————————————————————————————————————————————
-- src/mxs_decoder.rs
-- ——————————————————————————————————————————————————————————————————————————

/-- Rust: `pub struct MxsPacket<'a> { packet_type, data: &'a [u8] }`.
The borrowed payload slice `&data[data_start..data_end]` is represented by its
start offset and length into the decoder input. -/
structure MxsPacket where
  packet_type : MxsPacketType
  dataStart : Nat
  dataLen : Nat
deriving DecidableEq, Repr

/-- The bytes denoted by the borrowed payload slice of a packet, relative to
the buffer `buf` the decoder ran on. -/
def MxsPacket.data (p : MxsPacket) (buf : List Nat) : List Nat :=
  (buf.drop p.dataStart).take p.dataLen

/-- Rust: `pub struct MxsFilterResult<'a> { skipped_data, trim_index, packets }`.
`skipped_data` is a prefix of the input, so it is represented by its bytes. -/
structure MxsFilterResult where
  skipped_data : List Nat
  trim_index : Nat
  packets : List MxsPacket
deriving DecidableEq, Repr

/-- Rust: `pub struct MxsDecoder<'a> { data, cursor, skip_pos }` -/
structure MxsDecoder where
  data : List Nat
  cursor : Nat
  skip_pos : Option Nat
deriving DecidableEq, Repr

/-- Rust: `self.data[self.cursor..].windows(MARKER_LEN).position(|w| w == MARKER)`:
the offset of the first two consecutive bytes `0xAA 0x55`, if any.  A list
shorter than two bytes has no windows and yields `none`. -/
def findMarker : List Nat → Option Nat
  | a :: b :: rest =>
    if a = 0xAA ∧ b = 0x55 then some 0
    else (findMarker (b :: rest)).map (· + 1)
  | _ => none

/-- The `if self.skip_pos.is_none() { self.skip_pos = Some(p); }` pattern used
throughout `extract_packet`. -/
def MxsDecoder.markSkip (s : MxsDecoder) (p : Nat) : MxsDecoder :=
  match s.skip_pos with
  | none => { s with skip_pos := some p }
  | some _ => s

/-- Rust: `MxsDecoder::extract_packet` (src/mxs_decoder.rs:62-140), as a pure step on
the decoder state returning the extracted packet, if any.  In-bounds indexing
(`self.data[type_pos]`, `self.data[size_pos]`) is modelled with `getD _ 0`; the
guards already executed ensure the index is in bounds at every use. -/
def MxsDecoder.extract_packet (s : MxsDecoder) : MxsDecoder × Option MxsPacket :=
  -- Buffer too short to be able to extract a marker
  if s.cursor + MARKER_LEN > s.data.length then (s, none)
  else
    -- ---- Find packet start
    match findMarker (s.data.drop s.cursor) with
    | none =>
      -- We skip most of the data if no markers were found in the entire buffer
      (s.markSkip (s.data.length - (MARKER_LEN - 1)), none)
    | some found_rel =>
      let start_pos := found_rel + s.cursor
      -- Check if we have enough data to extract a minimal packet
      if start_pos + MIN_PACKET_SIZE > s.data.length then
        (s.markSkip start_pos, none)
      else
        let type_pos := start_pos + MARKER_LEN
        -- ---- Extract Packet Type
        match MxsPacketType.tryFrom (s.data.getD type_pos 0) with
        | none =>
          -- Unknown Packet Type or false marker: skip the non matching data
          let skip_pos := start_pos + MARKER_LEN
          ({ s.markSkip skip_pos with cursor := skip_pos }, none)
        | some packet_type =>
          -- ---- Extract Data Length
          let size_pos := type_pos + TYPE_LEN
          let data_len := s.data.getD size_pos 0
          -- ---- Extract Data
          let data_start := size_pos + SIZE_LEN
          let data_end := data_start + data_len
          -- Ensure packet fits in buffer
          if data_end > s.data.length then
            ({ s.markSkip start_pos with cursor := start_pos }, none)
          else
            ({ s.markSkip start_pos with cursor := data_end },
             some ⟨packet_type, data_start, data_len⟩)

/-- The `while let Some(packet) = decoder.extract_packet()` loop of
`filter_buffer`.  The Rust loop is unbounded; here it carries fuel, and
`filterLoop_fuel_stable` below shows that the fuel `filter_buffer` supplies is
always sufficient, so the model agrees with the unbounded loop. -/
def MxsDecoder.filterLoop : Nat → MxsDecoder → List MxsPacket → MxsDecoder × List MxsPacket
  | 0, s, packets => (s, packets)
  | fuel + 1, s, packets =>
    match s.extract_packet with
    | (s', some p) => MxsDecoder.filterLoop fuel s' (packets ++ [p])
    | (s', none) => (s', packets)

/-- Rust: `MxsDecoder::filter_buffer` (src/mxs_decoder.rs:38-59). -/
def MxsDecoder.filter_buffer (data : List Nat) : MxsFilterResult :=
  let r := MxsDecoder.filterLoop (data.length + 1) ⟨data, 0, none⟩ []
  let first_pos := r.1.skip_pos.getD 0
  { skipped_data := data.take first_pos
    trim_index := if r.2.isEmpty then first_pos else r.1.cursor
    packets := r.2 }

-- ——————————————————————————————————————————————————————————————————————————
-- src/mxs_encoder.rs
-- ——————————————————————————————————————————————————————————————————————————

/-- Rust: `MxsEncoder::create_data_package` (src/mxs_encoder.rs:14-26):
`MARKER ++ [p_type as u8] ++ data.len().to_le_bytes()[..SIZE_LEN] ++ data`.
The first little-endian byte of the length is `data.len() % 256`; the Rust
function asserts `data.len() <= MAX_DATA_LEN`, under which the byte equals the
length itself. -/
def MxsEncoder.create_data_package (p_type : MxsPacketType) (data : List Nat) : List Nat :=
  MARKER ++ [p_type.toByte] ++ [data.length % 256] ++ data

-- ——————————————————————————————————————————————————————————————————————————
-- src/data.rs
-- ——————————————————————————————————————————————————————————————————————————

/-- Rust: `i16::from_le_bytes([b0, b1])` on two bytes, as a signed integer in
`[-32768, 32767]`. -/
def i16FromLeBytes (b0 b1 : Nat) : Int :=
  let u := (b0 + 256 * b1) % 65536
  if u < 32768 then (u : Int) else (u : Int) - 65536

/-- The little-endian byte pair of a signed 16-bit integer, i.e.
`i16::to_le_bytes` composed with the two's-complement representation. -/
def i16ToLeBytes (x : Int) : List Nat :=
  [(x % 65536).toNat % 256, (x % 65536).toNat / 256]

/-- Rust: `pub struct Data(i16, i16, i16);` -/
structure Data where
  f0 : Int
  f1 : Int
  f2 : Int
deriving DecidableEq, Repr

/-- Rust: `impl TryFrom<&[u8]> for Data` (src/data.rs:26-38):
rejects any buffer whose length differs from `size_of::<Data>() = 6`,
otherwise reads three little-endian `i16`s from bytes `0..2`, `2..4`, `4..6`
(the inner `try_into` on a 2-byte slice cannot fail). -/
def Data.try_from (buf : List Nat) : Option Data :=
  if buf.length = 6 then
    some ⟨i16FromLeBytes (buf.getD 0 0) (buf.getD 1 0),
          i16FromLeBytes (buf.getD 2 0) (buf.getD 3 0),
          i16FromLeBytes (buf.getD 4 0) (buf.getD 5 0)⟩
  else none

-- ——————————————————————————————————————————————————————————————————————————
-- src/stdio_helper.rs — the key-event transition inside read_stdin_input
-- ——————————————————————————————————————————————————————————————————————————

/-- The key events handled by the `match (key_event.code, key_event.modifiers)`
in `read_stdin_input` (src/stdio_helper.rs:147-195).  Ctrl-C is excluded: its
arm exits the process and performs no state transition. -/
inductive Key where
  | enter
  | backspace
  | up
  | down
  | esc
  | char (c : Char)
deriving DecidableEq, Repr

/-- The editor state of `read_stdin_input`: the in/out line buffer `input`,
the `static HISTORY: VecDeque<String>` (front = most recent = head) and the
`static SCROLL_POS: usize`.  Strings are modelled as lists of characters. -/
structure EditorState where
  input : List Char
  history : List (List Char)
  scroll_pos : Nat
deriving DecidableEq, Repr

/-- One key-press transition of `read_stdin_input` (src/stdio_helper.rs:147-195):
  * Enter / Ctrl-J: `if history.front() != Some(input) { history.push_front(input.clone()) }`,
    then `scroll_pos = 0`, then `input.push('\n')`;
  * Backspace: `input.pop()`;
  * Up: `if let Some(item) = history.get(scroll_pos + 1) { input = item; scroll_pos += 1 }`;
  * Down: `if scroll_pos <= 1 { input.clear(); scroll_pos = 0 }
           else if let Some(item) = history.get(scroll_pos - 1) { input = item; scroll_pos -= 1 }`;
  * Esc: `input.clear(); scroll_pos = 0`;
  * Char c: `input.push(c)`. -/
def read_stdin_key (k : Key) (s : EditorState) : EditorState :=
  match k with
  | .enter =>
    { input := s.input ++ ['\n']
      history := if s.history.head? = some s.input then s.history else s.input :: s.history
      scroll_pos := 0 }
  | .backspace => { s with input := s.input.dropLast }
  | .up =>
    match s.history[s.scroll_pos + 1]? with
    | some item => { s with input := item, scroll_pos := s.scroll_pos + 1 }
    | none => s
  | .down =>
    if s.scroll_pos ≤ 1 then { s with input := [], scroll_pos := 0 }
    else
      match s.history[s.scroll_pos - 1]? with
      | some item => { s with input := item, scroll_pos := s.scroll_pos - 1 }
      | none => s
  | .esc => { s with input := [], scroll_pos := 0 }
  | .char c => { s with input := s.input ++ [c] }

-- ——————————————————————————————————————————————————————————————————————————
-- src/main.rs — auto_select_port and generate_key_from_suffix
-- ——————————————————————————————————————————————————————————————————————————

/-- Rust: `char::to_digit(10)`, which succeeds exactly on the ASCII digits
`'0'..='9'` (radix 10 uses no other characters) and fails on every other
character, including every non-ASCII Unicode numeric. -/
def char_to_digit10 (c : Char) : Option Nat :=
  if c.isDigit then some (c.toNat - 48) else none

/-- Rust: `generate_key_from_suffix` (src/main.rs:193-215).  Port names are
modelled as lists of characters.  The std predicate `char::is_numeric` (the
Unicode Nd/Nl/No table) is taken as a parameter `is_numeric`: theorems below
quantify over it, so they hold in particular for the real table.
`name.ends_with(char::is_numeric)` is the `is_numeric` test on the last
character.  Each trailing numeric character goes through
`to_digit(10).unwrap()`, which panics on a numeric character that is not an
ASCII digit; the panic is modelled by returning `none`.  The key accumulator
is a `u16`, so each `key += …` is taken modulo `2^16`. -/
def generate_key_from_suffix (is_numeric : Char → Bool) (name : List Char) : Option Nat :=
  match name.getLast? with
  | none => some 0
  | some c =>
    if is_numeric c then
      (name.reverse.takeWhile is_numeric).enum.foldl
        (fun acc f =>
          match acc, char_to_digit10 f.2 with
          | some key, some n => some ((key + (if f.1 = 0 then n else f.1 * 10 * n)) % 65536)
          | _, _ => none)
        (some 0)
    else some 0

/-- A concrete stand-in for `char::is_numeric` used by the closed statements
below.  It agrees with the Rust predicate on every character those statements
evaluate it on: on ASCII, `char::is_numeric` holds exactly for `'0'..='9'`
(which is `Char.isDigit`), and U+0663 ARABIC-INDIC DIGIT THREE is in Unicode
category Nd, so `is_numeric` holds for it while `to_digit(10)` fails. -/
def is_numeric_demo (c : Char) : Bool :=
  c.isDigit || c.toNat == 0x663

/-- The stable `sorted_ports.sort_by_key(|k| k.port_name.len())`: an element is
inserted before the first strictly longer one, preserving the original order of
equal lengths.  Only the head of the sorted list is consulted by
`auto_select_port`, and any sort ascending by length agrees on its length. -/
def insertByLen (x : List Char) : List (List Char) → List (List Char)
  | [] => [x]
  | y :: ys => if x.length ≤ y.length then x :: y :: ys else y :: insertByLen x ys

/-- Sorting by name length (see `insertByLen`). -/
def sortByLen : List (List Char) → List (List Char)
  | [] => []
  | x :: xs => insertByLen x (sortByLen xs)

/-- The fold inside `Iterator::max_by_key`: carry the best (key, element) pair,
replacing it whenever a later element's key is at least as large (so the last
maximal element wins, as in Rust).  The key of each element is evaluated once,
in order; a key that panics (is `none`) aborts the whole computation. -/
def max_by_key_go (key : List Char → Option Nat) :
    Nat × List Char → List (List Char) → Option (Nat × List Char)
  | acc, [] => some acc
  | (kb, b), e :: es =>
    match key e with
    | none => none
    | some ke => max_by_key_go key (if kb ≤ ke then (ke, e) else (kb, b)) es

/-- Rust: `Iterator::max_by_key` over a fallible (panicking) key.  The outer
`Option` is the panic: `none` when evaluating the key of any element panics.
The inner `Option` is Rust's return value: `none` on an empty iterator, else
the element with the maximal key, the last one when several are maximal. -/
def max_by_key (key : List Char → Option Nat) :
    List (List Char) → Option (Option (List Char))
  | [] => some none
  | x :: xs =>
    match key x with
    | none => none
    | some kx => (max_by_key_go key (kx, x) xs).map (fun p => some p.2)

/-- Rust: `auto_select_port` (src/main.rs:172-191): on a non-empty port list,
sort a copy by name length, take the length of the shortest name, and among
the ports of exactly that length return the one maximising
`generate_key_from_suffix`.  The outer `Option` models the
`to_digit(10).unwrap()` panic propagating out of the key computation; the
inner `Option` is the function's own return value. -/
def auto_select_port (is_numeric : Char → Bool) (ports : List (List Char)) :
    Option (Option (List Char)) :=
  if ports = [] then some none
  else
    let sorted_ports := sortByLen ports
    let name_len := (sorted_ports.headD []).length
    max_by_key (generate_key_from_suffix is_numeric)
      (ports.filter (fun f => f.length = name_len))

/-- The invariant that holds whenever the `while let` loop of `filter_buffer`
is about to call `extract_packet` on state `s` with `acc` the packets
accumulated so far. -/
def InvLoop (d : List Nat) (s : MxsDecoder) (acc : List MxsPacket) : Prop :=
  s.data = d
    ∧ s.cursor ≤ d.length
    ∧ (∀ k, s.skip_pos = some k → k ≤ s.cursor)
    ∧ (acc ≠ [] → s.skip_pos ≠ none)
    ∧ (∀ p ∈ acc, p.dataStart + p.dataLen ≤ s.cursor)
    ∧ List.Chain' (fun a b => a.dataStart + a.dataLen ≤ b.dataStart) acc

/-- The invariant of the state and packet list the loop finally returns. -/
def InvFinal (d : List Nat) (s : MxsDecoder) (acc : List MxsPacket) : Prop :=
  s.data = d
    ∧ s.cursor ≤ d.length
    ∧ (∀ k, s.skip_pos = some k → k ≤ d.length)
    ∧ (acc ≠ [] → ∃ k, s.skip_pos = some k ∧ k ≤ s.cursor)
    ∧ (∀ p ∈ acc, p.dataStart + p.dataLen ≤ s.cursor)
    ∧ List.Chain' (fun a b => a.dataStart + a.dataLen ≤ b.dataStart) acc

-- ——————————————————————————————————————————————————————————————————————————
-- Helper lemmas
-- ——————————————————————————————————————————————————————————————————————————

@[simp] theorem MARKER_eq : MARKER = [0xAA, 0x55] := rfl

@[simp] theorem MARKER_LEN_eq : MARKER_LEN = 2 := rfl

@[simp] theorem TYPE_LEN_eq : TYPE_LEN = 1 := rfl

@[simp] theorem SIZE_LEN_eq : SIZE_LEN = 1 := rfl

@[simp] theorem MIN_PACKET_SIZE_eq : MIN_PACKET_SIZE = 4 := rfl

/-- Decoding the discriminant of a valid variant recovers the variant. -/
theorem MxsPacketType.tryFrom_toByte (t : MxsPacketType) : MxsPacketType.tryFrom t.toByte = some t := by
  cases t <;> rfl

/-- If the marker byte pair occurs nowhere in `l`, the window scan finds
nothing. -/
theorem findMarker_eq_none (l : List Nat)
    (h : ∀ s t : List Nat, l ≠ s ++ 0xAA :: 0x55 :: t) : findMarker l = none := by
  induction l with
  | nil => rfl
  | cons a tail ih =>
    cases tail with
    | nil => rfl
    | cons b rest =>
      unfold findMarker
      have h1 : ¬(a = 0xAA ∧ b = 0x55) := by
        rintro ⟨rfl, rfl⟩
        exact h [] rest rfl
      rw [if_neg h1, ih ?_]
      · rfl
      · intro s t ht
        exact h (a :: s) t (by rw [List.cons_append, ← ht])

/-- Reconstructing an `i16` from its two little-endian two's-complement bytes
recovers the integer, for any integer in the signed 16-bit range. -/
theorem i16FromLeBytes_toLe (x : Int) (h1 : -32768 ≤ x) (h2 : x ≤ 32767) :
    i16FromLeBytes ((x % 65536).toNat % 256) ((x % 65536).toNat / 256) = x := by
  have h3 : 0 ≤ x % 65536 := Int.emod_nonneg x (by norm_num)
  have h4 : x % 65536 < 65536 := Int.emod_lt_of_pos x (by norm_num)
  have h5 : ((x % 65536).toNat : Int) = x % 65536 := Int.toNat_of_nonneg h3
  have h6 : (x % 65536).toNat % 256 + 256 * ((x % 65536).toNat / 256) = (x % 65536).toNat :=
    Nat.mod_add_div _ _
  simp only [i16FromLeBytes, h6]
  have h7 : (x % 65536).toNat % 65536 = (x % 65536).toNat := Nat.mod_eq_of_lt (by omega)
  rw [h7]
  split <;> omega

-- ——————————————————————————————————————————————————————————————————————————
-- Claim theorems
-- ——————————————————————————————————————————————————————————————————————————

/-- The window scan finds the marker at offset 0 when the list starts with the
marker byte pair. -/
theorem findMarker_cons_marker (rest : List Nat) : findMarker (0xAA :: 0x55 :: rest) = some 0 := by
  unfold findMarker
  simp

/-- C1: for every payload of at most 255 bytes (marker bytes inside the
payload included) and every valid packet type, framing with
`create_data_package` and decoding with `filter_buffer` yields exactly one
packet of that type whose payload bytes equal the original, with empty
`skipped_data` and `trim_index = |P| + 4`. -/
theorem C1_roundtrip (T : MxsPacketType) (P : List Nat) (hP : P.length ≤ 255) :
    MxsDecoder.filter_buffer (MxsEncoder.create_data_package T P) =
      ⟨[], P.length + 4, [⟨T, 4, P.length⟩]⟩
      ∧ MxsPacket.data ⟨T, 4, P.length⟩ (MxsEncoder.create_data_package T P) = P := by
  have hframe : MxsEncoder.create_data_package T P = 0xAA :: 0x55 :: T.toByte :: P.length :: P := by
    simp [MxsEncoder.create_data_package, Nat.mod_eq_of_lt (show P.length < 256 by omega)]
  rw [hframe]
  have hex1 : MxsDecoder.extract_packet ⟨0xAA :: 0x55 :: T.toByte :: P.length :: P, 0, none⟩ =
      (⟨0xAA :: 0x55 :: T.toByte :: P.length :: P, 4 + P.length, some 0⟩, some ⟨T, 4, P.length⟩) := by
    simp [MxsDecoder.extract_packet, findMarker_cons_marker, MxsPacketType.tryFrom_toByte,
      MxsDecoder.markSkip, List.getD]
    split_ifs with h1 h2 h3
    · exact absurd h1 (by omega)
    · exact absurd h2 (by omega)
    · exact absurd h3 (by omega)
    · rfl
  have hex2 : MxsDecoder.extract_packet
      ⟨0xAA :: 0x55 :: T.toByte :: P.length :: P, 4 + P.length, some 0⟩ =
      (⟨0xAA :: 0x55 :: T.toByte :: P.length :: P, 4 + P.length, some 0⟩, none) := by
    unfold MxsDecoder.extract_packet
    rw [if_pos (by simp only [MARKER_LEN_eq, List.length_cons]; omega)]
  have hloop : MxsDecoder.filterLoop ((0xAA :: 0x55 :: T.toByte :: P.length :: P).length + 1)
      ⟨0xAA :: 0x55 :: T.toByte :: P.length :: P, 0, none⟩ [] =
      (⟨0xAA :: 0x55 :: T.toByte :: P.length :: P, 4 + P.length, some 0⟩, [⟨T, 4, P.length⟩]) := by
    have hl : (0xAA :: 0x55 :: T.toByte :: P.length :: P).length + 1 = (P.length + 4) + 1 := by
      simp
    rw [hl]
    rw [show P.length + 4 = (P.length + 3) + 1 by omega]
    simp only [MxsDecoder.filterLoop, hex1, hex2, List.nil_append]
  constructor
  · unfold MxsDecoder.filter_buffer
    simp only [hloop, Option.getD_some, List.isEmpty_cons, List.take_zero]
    simp [Nat.add_comm]
  · simp [MxsPacket.data]

/-- C1 witness: a Data frame whose 3-byte payload itself contains the marker
byte pair. -/
theorem C1_roundtrip_witness :
    MxsDecoder.filter_buffer (MxsEncoder.create_data_package .Data [0xAA, 0x55, 7]) =
      ⟨[], 7, [⟨.Data, 4, 3⟩]⟩
      ∧ MxsPacket.data ⟨.Data, 4, 3⟩
          (MxsEncoder.create_data_package .Data [0xAA, 0x55, 7]) = [0xAA, 0x55, 7] :=
  C1_roundtrip .Data [0xAA, 0x55, 7] (by decide)

/-- C5: `Data::try_from(buf)` fails (returns `Err(DataError)`) if and only if
the length of `buf` is not exactly 6; for every 6-byte input it succeeds. -/
theorem C5_try_from_fails_iff_len_ne_six (buf : List Nat) :
    Data.try_from buf = none ↔ buf.length ≠ 6 := by
  unfold Data.try_from
  split <;> simp_all

/-- C6: for every triple of signed 16-bit integers, `Data::try_from` applied to
the concatenation of their little-endian encodings succeeds and returns the
record with those fields in order. -/
theorem C6_data_roundtrip (x y z : Int)
    (hx1 : -32768 ≤ x) (hx2 : x ≤ 32767)
    (hy1 : -32768 ≤ y) (hy2 : y ≤ 32767)
    (hz1 : -32768 ≤ z) (hz2 : z ≤ 32767) :
    Data.try_from (i16ToLeBytes x ++ i16ToLeBytes y ++ i16ToLeBytes z) = some ⟨x, y, z⟩ := by
  have e : i16ToLeBytes x ++ i16ToLeBytes y ++ i16ToLeBytes z =
      [(x % 65536).toNat % 256, (x % 65536).toNat / 256,
       (y % 65536).toNat % 256, (y % 65536).toNat / 256,
       (z % 65536).toNat % 256, (z % 65536).toNat / 256] := by
    simp [i16ToLeBytes]
  rw [e]
  unfold Data.try_from
  simp only [List.length_cons, List.length_nil, List.getD_cons_zero, List.getD_cons_succ,
    if_pos rfl]
  rw [i16FromLeBytes_toLe x hx1 hx2, i16FromLeBytes_toLe y hy1 hy2,
    i16FromLeBytes_toLe z hz1 hz2]
  simp

/-- C6 witness: the round trip at the concrete triple `(1, -2, 300)`. -/
theorem C6_data_roundtrip_witness :
    Data.try_from (i16ToLeBytes 1 ++ i16ToLeBytes (-2) ++ i16ToLeBytes 300) = some ⟨1, -2, 300⟩ :=
  C6_data_roundtrip 1 (-2) 300 (by norm_num) (by norm_num) (by norm_num) (by norm_num)
    (by norm_num) (by norm_num)

/-- C2 (against the claim): on the buffer consisting of the false marker
`AA 55 00` followed by the complete Data frame `AA 55 04 06 01 00 02 00 03 00`,
a single `filter_buffer` call emits zero packets (trimming only the marker),
even though the frame alone decodes to one packet — the `while let` loop of
`filter_buffer` stops at the `None` that `extract_packet` returns for a false
marker, so scanning does not continue within the same call. -/
theorem C2_false_marker_stops_scan :
    (MxsDecoder.filter_buffer [0xAA, 0x55, 0x00, 0xAA, 0x55, 4, 6, 1, 0, 2, 0, 3, 0]).packets = []
      ∧ (MxsDecoder.filter_buffer
          [0xAA, 0x55, 0x00, 0xAA, 0x55, 4, 6, 1, 0, 2, 0, 3, 0]).trim_index = 2
      ∧ (MxsDecoder.filter_buffer [0xAA, 0x55, 4, 6, 1, 0, 2, 0, 3, 0]).packets.length = 1 := by
  decide

/-- C3 (against the claim): on `AA 55 09` (false marker) followed by the
complete Heartbeat frame `AA 55 03 00`, a single `filter_buffer` run emits no
packet, while draining `trim_index` bytes and running again emits one — so the
two-phase process and the single run are not equivalent. -/
theorem C3_drain_rerun_differs :
    (MxsDecoder.filter_buffer [0xAA, 0x55, 9, 0xAA, 0x55, 3, 0]).packets.length = 0
      ∧ (MxsDecoder.filter_buffer
          (([0xAA, 0x55, 9, 0xAA, 0x55, 3, 0] : List Nat).drop
            (MxsDecoder.filter_buffer
              [0xAA, 0x55, 9, 0xAA, 0x55, 3, 0]).trim_index)).packets.length = 1 := by
  decide

/-- C4: for every buffer of length at least `MARKER_LEN` containing no
occurrence of the marker byte pair `0xAA 0x55`, `filter_buffer` returns no
packets, `trim_index = len - 1`, and `skipped_data` equal to the first
`len - 1` bytes — the final byte is retained for a marker split across
reads. -/
theorem C4_no_marker (B : List Nat) (hlen : 2 ≤ B.length)
    (hno : ∀ s t : List Nat, B ≠ s ++ 0xAA :: 0x55 :: t) :
    MxsDecoder.filter_buffer B = ⟨B.take (B.length - 1), B.length - 1, []⟩ := by
  have hfm : findMarker B = none := findMarker_eq_none B hno
  have hex : MxsDecoder.extract_packet ⟨B, 0, none⟩ = (⟨B, 0, some (B.length - 1)⟩, none) := by
    unfold MxsDecoder.extract_packet
    rw [if_neg (by simp; omega)]
    simp only [List.drop_zero, hfm, MxsDecoder.markSkip, MARKER_LEN_eq]
  have hloop : MxsDecoder.filterLoop (B.length + 1) ⟨B, 0, none⟩ [] =
      (⟨B, 0, some (B.length - 1)⟩, []) := by
    simp only [MxsDecoder.filterLoop, hex]
  unfold MxsDecoder.filter_buffer
  simp only [hloop, Option.getD_some, List.isEmpty_nil, if_pos]

/-- C4 witness: the marker-free three-byte buffer `[1, 2, 3]`. -/
theorem C4_no_marker_witness :
    MxsDecoder.filter_buffer [1, 2, 3] = ⟨[1, 2], 2, []⟩ :=
  C4_no_marker [1, 2, 3] (by decide)
    (by
      intro s t h
      rcases s with _ | ⟨a, _ | ⟨b, _ | ⟨c, s⟩⟩⟩ <;> simp_all)

/-- C7 counterexample: in the state with history `["a"]`, scroll 0 and an
empty buffer, history has an entry at index `scroll`, yet pressing Up neither
replaces the buffer with `history[scroll] = "a"` nor advances the scroll —
the code reads `history.get(scroll_pos + 1)`, which is `None` here. -/
theorem C7_up_counterexample :
    (⟨[], [['a']], 0⟩ : EditorState).history[(0 : Nat)]? = some ['a']
      ∧ (read_stdin_key .up ⟨[], [['a']], 0⟩).input ≠ ['a']
      ∧ (read_stdin_key .up ⟨[], [['a']], 0⟩).scroll_pos ≠ 1 := by
  decide

/-- C7 amended: pressing Up replaces the line buffer with
`history[scroll + 1]` (not `history[scroll]`) when that entry exists, and then
increments `scroll` by 1; so the first Up after a commit surfaces the
second-most-recent entry `history[1]`, and does nothing when history has fewer
than two entries. -/
theorem C7_up_amended (s : EditorState) (item : List Char)
    (h : s.history[s.scroll_pos + 1]? = some item) :
    read_stdin_key .up s = { s with input := item, scroll_pos := s.scroll_pos + 1 } := by
  unfold read_stdin_key
  rw [h]

/-- C7 amended, witness: with history `["a", "b"]` and scroll 0, Up surfaces
`history[1] = "b"` and sets scroll to 1. -/
theorem C7_up_amended_witness :
    read_stdin_key .up ⟨[], [['a'], ['b']], 0⟩ = ⟨['b'], [['a'], ['b']], 1⟩ :=
  C7_up_amended ⟨[], [['a'], ['b']], 0⟩ ['b'] (by decide)

/-- C8 counterexample: committing an empty line on an empty history pushes the
empty line into history — `read_stdin_input` has no non-emptiness guard, only
the comparison with `history.front()`. -/
theorem C8_enter_counterexample :
    (read_stdin_key .enter ⟨[], [], 0⟩).history = [[]] := by
  decide

/-- C8 amended: Enter pushes the current buffer to the front of history
exactly when it differs from the most recent history entry — with no
non-emptiness requirement, so committing an empty line does add an (empty)
entry whenever the most recent entry is not itself empty; the scroll cursor is
reset and a newline is appended to the buffer. -/
theorem C8_enter_amended (s : EditorState) :
    ((read_stdin_key .enter s).history = s.input :: s.history
        ∨ (read_stdin_key .enter s).history = s.history)
      ∧ ((read_stdin_key .enter s).history = s.history ↔ s.history.head? = some s.input)
      ∧ (read_stdin_key .enter s).input = s.input ++ ['\n']
      ∧ (read_stdin_key .enter s).scroll_pos = 0 := by
  by_cases h : s.history.head? = some s.input
  · simp [read_stdin_key, h]
  · simp [read_stdin_key, h, List.cons_ne_self]

/-- The head of the length-sorted list is an element of minimal length. -/
theorem sortByLen_head_min (l : List (List Char)) (hne : l ≠ []) :
    ∃ h t, sortByLen l = h :: t ∧ h ∈ l ∧ ∀ p ∈ l, h.length ≤ p.length := by
  induction l with
  | nil => exact absurd rfl hne
  | cons x xs ih =>
    cases xs with
    | nil => exact ⟨x, [], rfl, by simp, by simp⟩
    | cons y ys =>
      obtain ⟨h, t, hsort, hmem, hmin⟩ := ih (by simp)
      have hstep : sortByLen (x :: y :: ys) = insertByLen x (sortByLen (y :: ys)) := rfl
      by_cases hc : x.length ≤ h.length
      · refine ⟨x, h :: t, ?_, by simp, ?_⟩
        · rw [hstep, hsort, insertByLen, if_pos hc]
        · intro p hp
          rcases List.mem_cons.mp hp with rfl | hp
          · exact le_refl _
          · exact le_trans hc (hmin p hp)
      · refine ⟨h, insertByLen x t, ?_, List.mem_cons_of_mem x hmem, ?_⟩
        · rw [hstep, hsort, insertByLen, if_neg hc]
        · intro p hp
          rcases List.mem_cons.mp hp with rfl | hp
          · omega
          · exact hmin p hp

/-- The fold inside `max_by_key`, on a best pair whose key is consistent and a
tail whose keys all compute, returns a consistent pair whose key dominates the
carried key and every tail key. -/
theorem max_by_key_go_spec (key : List Char → Option Nat) :
    ∀ (es : List (List Char)) (kb : Nat) (b : List Char),
      key b = some kb → (∀ e ∈ es, key e ≠ none) →
      ∃ kr r, max_by_key_go key (kb, b) es = some (kr, r) ∧ key r = some kr
        ∧ (r = b ∨ r ∈ es) ∧ kb ≤ kr
        ∧ ∀ e ∈ es, ∀ ke, key e = some ke → ke ≤ kr := by
  intro es
  induction es with
  | nil =>
    intro kb b hb _
    exact ⟨kb, b, rfl, hb, Or.inl rfl, le_refl _, by simp⟩
  | cons e es ih =>
    intro kb b hb hnp
    rcases hke : key e with _ | ke
    · exact absurd hke (hnp e (by simp))
    · have hstep : max_by_key_go key (kb, b) (e :: es) =
          max_by_key_go key (if kb ≤ ke then (ke, e) else (kb, b)) es := by
        simp only [max_by_key_go, hke]
      have hnp2 : ∀ x ∈ es, key x ≠ none := fun x hx => hnp x (by simp [hx])
      by_cases hc : kb ≤ ke
      · rw [hstep, if_pos hc]
        obtain ⟨kr, r, h1, h2, h3, h4, h5⟩ := ih ke e hke hnp2
        refine ⟨kr, r, h1, h2, ?_, le_trans hc h4, ?_⟩
        · rcases h3 with rfl | h3
          · exact Or.inr (by simp)
          · exact Or.inr (by simp [h3])
        · intro x hx kx hkx
          rcases List.mem_cons.mp hx with rfl | hx
          · rw [hke] at hkx
            injection hkx with heq
            omega
          · exact h5 x hx kx hkx
      · rw [hstep, if_neg hc]
        obtain ⟨kr, r, h1, h2, h3, h4, h5⟩ := ih kb b hb hnp2
        refine ⟨kr, r, h1, h2, ?_, h4, ?_⟩
        · rcases h3 with rfl | h3
          · exact Or.inl rfl
          · exact Or.inr (by simp [h3])
        · intro x hx kx hkx
          rcases List.mem_cons.mp hx with rfl | hx
          · rw [hke] at hkx
            injection hkx with heq
            omega
          · exact h5 x hx kx hkx

/-- Function `max_by_key`, on a non-empty list all of whose keys compute,
does not panic and returns an element whose key is maximal. -/
theorem max_by_key_spec (key : List Char → Option Nat) (l : List (List Char)) (hne : l ≠ [])
    (hnp : ∀ e ∈ l, key e ≠ none) :
    ∃ r kr, max_by_key key l = some (some r) ∧ r ∈ l ∧ key r = some kr
      ∧ ∀ e ∈ l, ∀ ke, key e = some ke → ke ≤ kr := by
  cases l with
  | nil => exact absurd rfl hne
  | cons x xs =>
    rcases hkx : key x with _ | kx
    · exact absurd hkx (hnp x (by simp))
    · obtain ⟨kr, r, h1, h2, h3, h4, h5⟩ := max_by_key_go_spec key xs kx x hkx
        (fun e he => hnp e (by simp [he]))
      refine ⟨r, kr, ?_, ?_, h2, ?_⟩
      · simp [max_by_key, hkx, h1]
      · rcases h3 with rfl | h3
        · simp
        · simp [h3]
      · intro e he ke hke
        rcases List.mem_cons.mp he with rfl | he
        · rw [hkx] at hke
          injection hke with heq
          omega
        · exact h5 e he ke hke

/-- C9 counterexample: the claim's universally quantified success fails on the
program.  On the one-element port list "COM٣" — the name ends in U+0663
ARABIC-INDIC DIGIT THREE, a Unicode numeric character that is not an ASCII
digit — `char::is_numeric` accepts the character but `to_digit(10).unwrap()`
panics, so `auto_select_port` panics (`none`) instead of returning a name.
`is_numeric_demo` agrees with `char::is_numeric` on every character this input
evaluates it on. -/
theorem C9_panic_counterexample :
    generate_key_from_suffix is_numeric_demo ['C', 'O', 'M', Char.ofNat 0x663] = none
      ∧ auto_select_port is_numeric_demo [['C', 'O', 'M', Char.ofNat 0x663]] = none := by
  decide

/-- C9 amended: for every numeric-character predicate (in particular Rust's
`char::is_numeric`) and every non-empty port list on which no suffix-key
computation panics — e.g. any list of ASCII names — `auto_select_port` does
not panic and returns a name of minimal length whose numeric-suffix key is
maximal among the names of that minimal length; the key scans trailing numeric
characters from the end, adds the ones digit unweighted and each successive
digit weighted by ten times its position index, and is 0 for names not ending
in a numeric character.  Concretely (with the demonstration predicate, which
matches `char::is_numeric` on ASCII) the key of "COM9" is 9 and outranks the
key 3 of "COM3". -/
theorem C9_auto_select_port (is_numeric : Char → Bool) (ports : List (List Char))
    (hne : ports ≠ [])
    (hkeys : ∀ p ∈ ports, generate_key_from_suffix is_numeric p ≠ none) :
    (∃ r, auto_select_port is_numeric ports = some (some r) ∧ r ∈ ports
        ∧ (∀ p ∈ ports, r.length ≤ p.length)
        ∧ (∀ p ∈ ports, p.length = r.length → ∀ kp kr,
            generate_key_from_suffix is_numeric p = some kp →
            generate_key_from_suffix is_numeric r = some kr → kp ≤ kr))
      ∧ generate_key_from_suffix is_numeric_demo ['C', 'O', 'M', '9'] = some 9
      ∧ generate_key_from_suffix is_numeric_demo ['C', 'O', 'M', '3'] = some 3 := by
  refine ⟨?_, by decide, by decide⟩
  obtain ⟨h, t, hsort, hmem, hmin⟩ := sortByLen_head_min ports hne
  have hfil : h ∈ ports.filter (fun f => f.length = h.length) := by
    simp [List.mem_filter, hmem]
  have hfne : ports.filter (fun f => f.length = h.length) ≠ [] := by
    intro hc
    rw [hc] at hfil
    exact absurd hfil (List.not_mem_nil h)
  have hnp : ∀ e ∈ ports.filter (fun f => f.length = h.length),
      generate_key_from_suffix is_numeric e ≠ none :=
    fun e he => hkeys e (List.mem_filter.mp he).1
  obtain ⟨r, kr, hmax, hrmem, hkr, hrmax⟩ :=
    max_by_key_spec (generate_key_from_suffix is_numeric) _ hfne hnp
  have hr2 := List.mem_filter.mp hrmem
  have hrlen : r.length = h.length := by simpa using hr2.2
  refine ⟨r, ?_, hr2.1, ?_, ?_⟩
  · unfold auto_select_port
    rw [if_neg hne]
    simp only [hsort, List.headD_cons]
    exact hmax
  · intro p hp
    rw [hrlen]
    exact hmin p hp
  · intro p hp hlen kp kr2 hkp hkr2
    have hkp2 := hrmax p (List.mem_filter.mpr ⟨hp, by simp [hlen, hrlen]⟩) kp hkp
    rw [hkr] at hkr2
    injection hkr2 with heq
    omega

/-- C9 amended, witness: among COM1, COM3, COM9, COM10 (all ASCII, so no key
computation panics) the selection facts hold; the implementation picks COM9. -/
theorem C9_auto_select_port_witness :
    (∃ r, auto_select_port is_numeric_demo
          [['C', 'O', 'M', '1'], ['C', 'O', 'M', '3'], ['C', 'O', 'M', '9'],
            ['C', 'O', 'M', '1', '0']] = some (some r)
        ∧ r ∈ [['C', 'O', 'M', '1'], ['C', 'O', 'M', '3'], ['C', 'O', 'M', '9'],
            ['C', 'O', 'M', '1', '0']]
        ∧ (∀ p ∈ [['C', 'O', 'M', '1'], ['C', 'O', 'M', '3'], ['C', 'O', 'M', '9'],
            ['C', 'O', 'M', '1', '0']], r.length ≤ p.length)
        ∧ (∀ p ∈ [['C', 'O', 'M', '1'], ['C', 'O', 'M', '3'], ['C', 'O', 'M', '9'],
            ['C', 'O', 'M', '1', '0']], p.length = r.length → ∀ kp kr,
            generate_key_from_suffix is_numeric_demo p = some kp →
            generate_key_from_suffix is_numeric_demo r = some kr → kp ≤ kr))
      ∧ generate_key_from_suffix is_numeric_demo ['C', 'O', 'M', '9'] = some 9
      ∧ generate_key_from_suffix is_numeric_demo ['C', 'O', 'M', '3'] = some 3 :=
  C9_auto_select_port is_numeric_demo
    [['C', 'O', 'M', '1'], ['C', 'O', 'M', '3'], ['C', 'O', 'M', '9'], ['C', 'O', 'M', '1', '0']]
    (by decide) (by decide)

/-- A found marker offset is at least two bytes from the end of the scanned
slice. -/
theorem findMarker_some_le (l : List Nat) : ∀ i, findMarker l = some i → i + 2 ≤ l.length := by
  induction l with
  | nil => intro i h; simp [findMarker] at h
  | cons a tail ih =>
    cases tail with
    | nil => intro i h; simp [findMarker] at h
    | cons b rest =>
      intro i h
      unfold findMarker at h
      split at h
      · simp at h
        simp [← h]
      · simp only [Option.map_eq_some'] at h
        obtain ⟨j, hj, rfl⟩ := h
        have := ih j hj
        simp at this ⊢
        omega

theorem markSkip_data (s : MxsDecoder) (p : Nat) : (s.markSkip p).data = s.data := by
  unfold MxsDecoder.markSkip
  split <;> rfl

theorem markSkip_cursor (s : MxsDecoder) (p : Nat) : (s.markSkip p).cursor = s.cursor := by
  unfold MxsDecoder.markSkip
  split <;> rfl

theorem markSkip_skip_pos (s : MxsDecoder) (p : Nat) :
    (s.markSkip p).skip_pos = some (s.skip_pos.getD p) := by
  unfold MxsDecoder.markSkip
  split <;> simp_all

theorem InvLoop.toFinal {d : List Nat} {s : MxsDecoder} {acc : List MxsPacket}
    (h : InvLoop d s acc) : InvFinal d s acc := by
  obtain ⟨h1, h2, h3, h4, h5, h6⟩ := h
  refine ⟨h1, h2, fun k hk => le_trans (h3 k hk) h2, ?_, h5, h6⟩
  intro hne
  rcases hs : s.skip_pos with _ | k
  · exact absurd hs (h4 hne)
  · exact ⟨k, rfl, h3 k hs⟩

/-- An `extract_packet` call that returns no packet produces a state
satisfying the final invariant. -/
theorem extract_packet_inv_none (d : List Nat) (s s' : MxsDecoder) (acc : List MxsPacket)
    (h : s.extract_packet = (s', none)) (hinv : InvLoop d s acc) : InvFinal d s' acc := by
  obtain ⟨hdata, hcur, hskip, hskne, hacc, hchain⟩ := hinv
  unfold MxsDecoder.extract_packet at h
  rw [hdata] at h
  simp only [MARKER_LEN_eq, MIN_PACKET_SIZE_eq, TYPE_LEN_eq, SIZE_LEN_eq,
    List.getD_eq_getElem?_getD] at h
  split at h
  · -- cursor + 2 > length: state unchanged
    rename_i hguard
    rw [Prod.mk.injEq] at h
    obtain ⟨h1, -⟩ := h
    subst h1
    exact InvLoop.toFinal ⟨hdata, hcur, hskip, hskne, hacc, hchain⟩
  · rename_i hguard
    split at h
    · -- no marker in the rest of the buffer
      rename_i hfm
      rw [Prod.mk.injEq] at h
      obtain ⟨h1, -⟩ := h
      subst h1
      refine ⟨by rw [markSkip_data, hdata], by rw [markSkip_cursor]; exact hcur, ?_, ?_, ?_, hchain⟩
      · intro k hk
        rw [markSkip_skip_pos] at hk
        rcases hs : s.skip_pos with _ | k0 <;> rw [hs] at hk <;> simp at hk
        · omega
        · exact hk ▸ le_trans (hskip k0 hs) hcur
      · intro hne
        rcases hs : s.skip_pos with _ | k0
        · exact absurd hs (hskne hne)
        · exact ⟨k0, by rw [markSkip_skip_pos, hs]; simp, by rw [markSkip_cursor]; exact hskip k0 hs⟩
      · intro p hp
        rw [markSkip_cursor]
        exact hacc p hp
    · rename_i rel hfm
      have hrel : rel + s.cursor + 2 ≤ d.length := by
        have h1 := findMarker_some_le _ rel hfm
        rw [List.length_drop] at h1
        omega
      split at h
      · -- marker found but fewer than MIN_PACKET_SIZE bytes remain
        rename_i hshort
        rw [Prod.mk.injEq] at h
        obtain ⟨h1, -⟩ := h
        subst h1
        refine ⟨by rw [markSkip_data, hdata], by rw [markSkip_cursor]; exact hcur, ?_, ?_, ?_, hchain⟩
        · intro k hk
          rw [markSkip_skip_pos] at hk
          rcases hs : s.skip_pos with _ | k0 <;> rw [hs] at hk <;> simp at hk
          · omega
          · exact hk ▸ le_trans (hskip k0 hs) hcur
        · intro hne
          rcases hs : s.skip_pos with _ | k0
          · exact absurd hs (hskne hne)
          · exact ⟨k0, by rw [markSkip_skip_pos, hs]; simp, by rw [markSkip_cursor]; exact hskip k0 hs⟩
        · intro p hp
          rw [markSkip_cursor]
          exact hacc p hp
      · rename_i hlong
        split at h
        · -- false marker: the type byte is invalid
          rw [Prod.mk.injEq] at h
          obtain ⟨h1, -⟩ := h
          subst h1
          refine ⟨by rw [markSkip_data, hdata], by simp; omega, ?_, ?_, ?_, hchain⟩
          · intro k hk
            simp only [markSkip_skip_pos] at hk
            rcases hs : s.skip_pos with _ | k0 <;> rw [hs] at hk <;> simp at hk
            · try simp
              omega
            · have := hskip k0 hs
              simp
              omega
          · intro hne
            rcases hs : s.skip_pos with _ | k0
            · exact ⟨rel + s.cursor + 2, by simp only [markSkip_skip_pos, hs]; simp, by simp⟩
            · exact ⟨k0, by simp only [markSkip_skip_pos, hs]; simp,
                by have := hskip k0 hs; simp; omega⟩
          · intro p hp
            have := hacc p hp
            try simp
            omega
        · split at h
          · -- declared payload does not fit in the buffer
            rename_i hnofit
            rw [Prod.mk.injEq] at h
            obtain ⟨h1, -⟩ := h
            subst h1
            refine ⟨by rw [markSkip_data, hdata], by simp; omega, ?_, ?_, ?_, hchain⟩
            · intro k hk
              simp only [markSkip_skip_pos] at hk
              rcases hs : s.skip_pos with _ | k0 <;> rw [hs] at hk <;> simp at hk
              · try simp
                omega
              · have := hskip k0 hs
                try simp
                omega
            · intro hne
              rcases hs : s.skip_pos with _ | k0
              · exact ⟨rel + s.cursor, by simp only [markSkip_skip_pos, hs]; simp, by simp⟩
              · exact ⟨k0, by simp only [markSkip_skip_pos, hs]; simp,
                  by have := hskip k0 hs; simp; omega⟩
            · intro p hp
              have := hacc p hp
              simp
              omega
          · -- the emit branch cannot return none
            simp at h

/-- An `extract_packet` call that emits a packet preserves the loop invariant,
with the packet appended. -/
theorem extract_packet_inv_some (d : List Nat) (s s' : MxsDecoder) (p : MxsPacket)
    (acc : List MxsPacket) (h : s.extract_packet = (s', some p)) (hinv : InvLoop d s acc) :
    InvLoop d s' (acc ++ [p]) := by
  obtain ⟨hdata, hcur, hskip, hskne, hacc, hchain⟩ := hinv
  unfold MxsDecoder.extract_packet at h
  rw [hdata] at h
  simp only [MARKER_LEN_eq, MIN_PACKET_SIZE_eq, TYPE_LEN_eq, SIZE_LEN_eq,
    List.getD_eq_getElem?_getD] at h
  split at h
  · simp at h
  · rename_i hguard
    split at h
    · simp at h
    · rename_i rel hfm
      split at h
      · simp at h
      · rename_i hlong
        split at h
        · simp at h
        · split at h
          · simp at h
          · -- the emit branch
            rename_i hfit
            rw [Prod.mk.injEq] at h
            obtain ⟨h1, hp⟩ := h
            subst h1
            rw [Option.some.injEq] at hp
            subst hp
            refine ⟨by rw [markSkip_data, hdata], by simp; omega, ?_, ?_, ?_, ?_⟩
            · intro k hk
              simp only [markSkip_skip_pos] at hk
              rcases hs : s.skip_pos with _ | k0 <;> rw [hs] at hk <;> simp at hk
              · try simp
                omega
              · have := hskip k0 hs
                try simp
                omega
            · intro _
              simp [markSkip_skip_pos]
            · intro q hq
              rcases List.mem_append.mp hq with hq | hq
              · have := hacc q hq
                try simp
                omega
              · simp at hq
                subst hq
                simp
            · rw [List.chain'_append]
              refine ⟨hchain, by simp, ?_⟩
              intro x hx y hy
              simp at hy
              subst hy
              obtain ⟨hxne, hxeq⟩ := List.mem_getLast?_eq_getLast hx
              have hxmem : x ∈ acc := hxeq ▸ List.getLast_mem hxne
              have := hacc x hxmem
              simp
              omega

/-- The extraction loop carries the loop invariant to the final invariant for
any fuel. -/
theorem filterLoop_inv (d : List Nat) :
    ∀ (fuel : Nat) (s : MxsDecoder) (acc : List MxsPacket), InvLoop d s acc →
      InvFinal d (MxsDecoder.filterLoop fuel s acc).1 (MxsDecoder.filterLoop fuel s acc).2 := by
  intro fuel
  induction fuel with
  | zero => exact fun s acc hinv => hinv.toFinal
  | succ fuel ih =>
    intro s acc hinv
    rcases hex : s.extract_packet with ⟨s', r⟩
    cases r with
    | none =>
      simp only [MxsDecoder.filterLoop, hex]
      exact extract_packet_inv_none d s s' acc hex hinv
    | some p =>
      simp only [MxsDecoder.filterLoop, hex]
      exact ih s' (acc ++ [p]) (extract_packet_inv_some d s s' p acc hex hinv)

/-- C10: for every input buffer the filter result is well-formed:
`trim_index` never exceeds the buffer length, `skipped_data` is a prefix of
the buffer no longer than `trim_index`, every emitted packet's payload slice
lies within the first `trim_index` bytes, and the packets are in wire order
and non-overlapping. -/
theorem C10_filter_result_wellformed (d : List Nat) :
    (MxsDecoder.filter_buffer d).trim_index ≤ d.length
      ∧ (∃ rest, (MxsDecoder.filter_buffer d).skipped_data ++ rest = d)
      ∧ (MxsDecoder.filter_buffer d).skipped_data.length ≤ (MxsDecoder.filter_buffer d).trim_index
      ∧ (∀ p ∈ (MxsDecoder.filter_buffer d).packets,
          p.dataStart + p.dataLen ≤ (MxsDecoder.filter_buffer d).trim_index)
      ∧ List.Chain' (fun a b => a.dataStart + a.dataLen ≤ b.dataStart)
          (MxsDecoder.filter_buffer d).packets := by
  have hfin := filterLoop_inv d (d.length + 1) ⟨d, 0, none⟩ []
    ⟨rfl, by simp, by simp, by simp, by simp, by simp⟩
  set R := MxsDecoder.filterLoop (d.length + 1) ⟨d, 0, none⟩ [] with hR
  obtain ⟨h1, h2, h3, h4, h5, h6⟩ := hfin
  have hfb : MxsDecoder.filter_buffer d =
      { skipped_data := d.take (R.1.skip_pos.getD 0),
        trim_index := if R.2.isEmpty then R.1.skip_pos.getD 0 else R.1.cursor,
        packets := R.2 } := rfl
  rw [hfb]
  have hfp : R.1.skip_pos.getD 0 ≤ d.length := by
    rcases hs : R.1.skip_pos with _ | k
    · simp
    · simpa using h3 k hs
  refine ⟨?_, ⟨d.drop (R.1.skip_pos.getD 0), List.take_append_drop _ _⟩, ?_, ?_, ?_⟩
  · by_cases hp : R.2.isEmpty <;> simp [hp, hfp, h2]
  · simp only [List.length_take]
    by_cases hp : R.2.isEmpty
    · simp only [hp, if_true]
      omega
    · have hne : R.2 ≠ [] := by simpa [List.isEmpty_iff] using hp
      obtain ⟨k, hk, hkc⟩ := h4 hne
      simp only [hp, Bool.false_eq_true, if_false, hk, Option.getD_some]
      omega
  · intro p hp
    have hne : R.2 ≠ [] := by intro hc; rw [hc] at hp; simp at hp
    have hemp : R.2.isEmpty = false := by simpa [List.isEmpty_iff] using hne
    simp only [hemp, Bool.false_eq_true, if_false]
    exact h5 p hp
  · exact h6

/-- A successful extraction strictly advances the cursor and keeps it within
the buffer. -/
theorem extract_packet_progress (s s' : MxsDecoder) (p : MxsPacket)
    (h : s.extract_packet = (s', some p)) :
    s'.data = s.data ∧ s.cursor < s'.cursor ∧ s'.cursor ≤ s.data.length := by
  unfold MxsDecoder.extract_packet at h
  simp only [MARKER_LEN_eq, MIN_PACKET_SIZE_eq, TYPE_LEN_eq, SIZE_LEN_eq,
    List.getD_eq_getElem?_getD] at h
  split at h
  · simp at h
  · split at h
    · simp at h
    · rename_i rel hfm
      split at h
      · simp at h
      · rename_i hlong
        split at h
        · simp at h
        · split at h
          · simp at h
          · rename_i hfit
            rw [Prod.mk.injEq] at h
            obtain ⟨h1, -⟩ := h
            subst h1
            refine ⟨by rw [markSkip_data], by simp; omega, by simp; omega⟩

/-- Supplying one more unit of fuel than `len + 1 - cursor` never changes the
result: the fuel `filter_buffer` passes is sufficient, so the model computes
the same result as the unbounded Rust loop. -/
theorem filterLoop_fuel_stable :
    ∀ (fuel : Nat) (s : MxsDecoder) (acc : List MxsPacket),
      s.data.length + 1 - s.cursor ≤ fuel → s.cursor ≤ s.data.length →
      MxsDecoder.filterLoop fuel s acc = MxsDecoder.filterLoop (fuel + 1) s acc := by
  intro fuel
  induction fuel with
  | zero => intro s acc hfuel hcur; omega
  | succ fuel ih =>
    intro s acc hfuel hcur
    rcases hex : s.extract_packet with ⟨s', r⟩
    cases r with
    | none => simp only [MxsDecoder.filterLoop, hex]
    | some p =>
      obtain ⟨hd, hlt, hle⟩ := extract_packet_progress s s' p hex
      have hlen : s'.data.length = s.data.length := by rw [hd]
      simp only [MxsDecoder.filterLoop, hex]
      exact ih s' (acc ++ [p]) (by omega) (by omega)

/-- Any amount of extra fuel beyond what `filter_buffer` supplies leaves the
extraction loop's result unchanged. -/
theorem filterLoop_fuel_adequate (d : List Nat) (extra : Nat) :
    MxsDecoder.filterLoop (d.length + 1 + extra) ⟨d, 0, none⟩ [] =
      MxsDecoder.filterLoop (d.length + 1) ⟨d, 0, none⟩ [] := by
  induction extra with
  | zero => rfl
  | succ e ih =>
    have hstep := filterLoop_fuel_stable (d.length + 1 + e) ⟨d, 0, none⟩ []
      (by simp) (by simp)
    calc MxsDecoder.filterLoop (d.length + 1 + (e + 1)) ⟨d, 0, none⟩ []
        = MxsDecoder.filterLoop (d.length + 1 + e + 1) ⟨d, 0, none⟩ [] := rfl
      _ = MxsDecoder.filterLoop (d.length + 1 + e) ⟨d, 0, none⟩ [] := hstep.symm
      _ = MxsDecoder.filterLoop (d.length + 1) ⟨d, 0, none⟩ [] := ih

end MxsLink
